import Mathlib

/-!
Verification of the retrieval-quality core of the `rag_blueprint` repository:
the Domain-Aware Query Rewriter (`query_rewriter.py`), the Dynamic Temporal
Retriever (`dynamic_temporal/retriever.py`), the Hybrid Filtering
Postprocessor (`hybrid_filter/postprocessor.py`) and the Bundestag Party
extractor (`party_extractor.py`).

Strings from the Python sources are modelled as lists of characters
(`Str := List Char`); Python `dict`s become association lists (first match
wins, mirroring unique-key dictionaries); floats used for similarity scores
become exact rationals.  The Unicode character classification functions
(`str.lower`, `str.isupper`, ...) are modelled on the character repertoire
the sources actually use: ASCII plus the German special letters.
-/

/-! ## String model -/

/-- A Python string, as a list of characters. -/
abbrev Str := List Char

/-- View of a Lean string literal as a character list. -/
def s2l (s : String) : Str := s.data

/-- Python `str.lower` on one character (ASCII plus German umlauts). -/
def pyToLower (c : Char) : Char :=
  if c = 'Ä' then 'ä'
  else if c = 'Ö' then 'ö'
  else if c = 'Ü' then 'ü'
  else c.toLower

/-- Python `str.lower` over a whole string. -/
def lowerStr (s : Str) : Str := s.map pyToLower

/-- Python `str.upper` on one character; `'ß'` is handled in `pyUpper`. -/
def pyToUpperChar (c : Char) : Char :=
  if c = 'ä' then 'Ä'
  else if c = 'ö' then 'Ö'
  else if c = 'ü' then 'Ü'
  else c.toUpper

/-- Python `str.upper` over a whole string (`'ß'.upper() == "SS"`). -/
def pyUpper (s : Str) : Str :=
  s.flatMap (fun c => if c = 'ß' then [ 'S', 'S' ] else [pyToUpperChar c])

/-- Python alphabetic test for the repertoire in use. -/
def pyIsAlphaChar (c : Char) : Bool :=
  c.isAlpha || c = 'Ä' || c = 'Ö' || c = 'Ü' || c = 'ä' || c = 'ö' || c = 'ü' || c = 'ß'

/-- Python uppercase test for the repertoire in use. -/
def pyIsUpperChar (c : Char) : Bool :=
  ('A' ≤ c && c ≤ 'Z') || c = 'Ä' || c = 'Ö' || c = 'Ü'

/-- Python whitespace test (`str.strip` / regex `\s`). -/
def pyIsSpace (c : Char) : Bool := c.isWhitespace

/-- Python `str.strip()`. -/
def pyStrip (s : Str) : Str :=
  ((s.dropWhile pyIsSpace).reverse.dropWhile pyIsSpace).reverse

/-- Whether `s` starts with `p` (Python `str.startswith`). -/
def isPrefixList : Str → Str → Bool
  | [], _ => true
  | _ :: _, [] => false
  | a :: s, b :: t => (a == b) && isPrefixList s t

/-- Python substring containment `needle in hay`. -/
def isSubstring (needle hay : Str) : Bool :=
  (List.range (hay.length + 1)).any (fun i => isPrefixList needle (hay.drop i))

/-- Whether any keyword of `kws` occurs as a substring of `ql`. -/
def anyKeywordIn (kws : List Str) (ql : Str) : Bool :=
  kws.any (fun kw => isSubstring kw ql)

/-- Python regex word character (`\w`): letter, digit or underscore. -/
def isWordChar (c : Char) : Bool := pyIsAlphaChar c || c.isDigit || c = '_'

/-- Whether the character at position `p` of `s` exists and is a word
character. -/
def wordCharAt (s : Str) (p : Nat) : Bool :=
  match (s.drop p).head? with
  | some c => isWordChar c
  | none => false

/-- Python regex word boundary `\b` at position `p` of `s`: exactly one of
the neighbouring positions holds a word character. -/
def boundaryAt (s : Str) (p : Nat) : Bool :=
  (if p = 0 then false else wordCharAt s (p - 1)) != wordCharAt s p

/-- Python `re.search(rf"\b{re.escape(kw)}\b", hay)`: the literal keyword
occurs somewhere in `hay` with a word boundary on both sides. -/
def wordBoundaryMatch (kw hay : Str) : Bool :=
  (List.range (hay.length + 1)).any (fun i =>
    isPrefixList kw (hay.drop i) && boundaryAt hay i && boundaryAt hay (i + kw.length))

/-- First component of Python `s.split("/")`. -/
def takeUntilSlash : Str → Str
  | [] => []
  | c :: rest => if c = '/' then [] else c :: takeUntilSlash rest

/-- Lookup in an association list modelling a Python `dict` with unique
keys (`d.get(k)`). -/
def alookup : List (Str × α) → Str → Option α
  | [], _ => none
  | (k, v) :: rest, key => if k = key then some v else alookup rest key

/-- Python `str(x)` for an optional integer field: `str(None) == "None"`. -/
def pyStrOptInt : Option Int → Str
  | none => s2l "None"
  | some i => s2l (toString i)

/-! ## Temporal domain configuration (`temporal_domain_config.py`) -/

/-- `TemporalKeywords`: keyword lists per language. -/
structure TemporalKeywords where
  en : List Str
  de : List Str
  fr : List Str
  es : List Str
deriving DecidableEq

/-- `PeriodDefinition`: identifiers, years and classification of a period. -/
structure PeriodDefinition where
  names : List Str
  years : List Int
  temporal_type : Str
deriving DecidableEq

/-- `QueryExpansionTerms`: expansion-term strings per language. -/
structure QueryExpansionTerms where
  de : Str
  en : Str
  fr : Str
  es : Str
deriving DecidableEq

/-- The `metadata_schema` dictionary: each key may be absent. -/
structure MetadataSchema where
  temporal_field : Option Str
  current_period : Option Int
  historical_period : Option Int
deriving DecidableEq

/-- `TemporalDomainConfiguration`. -/
structure TemporalDomainConfiguration where
  name : Str
  metadata_schema : MetadataSchema
  temporal_keywords : List (Str × TemporalKeywords)
  period_identifiers : List (Str × PeriodDefinition)
  query_expansion : List (Str × QueryExpansionTerms)
  language_detection : List (Str × List Str)
deriving DecidableEq

namespace TemporalDomainConfiguration

/-- Property `current_period_value`. -/
def currentPeriodValue (c : TemporalDomainConfiguration) : Option Int :=
  c.metadata_schema.current_period

/-- Property `historical_period_value`. -/
def historicalPeriodValue (c : TemporalDomainConfiguration) : Option Int :=
  c.metadata_schema.historical_period

/-- Property `temporal_field_name` (default `"period"`). -/
def temporalFieldName (c : TemporalDomainConfiguration) : Str :=
  c.metadata_schema.temporal_field.getD (s2l "period")

/-- `get_all_current_keywords`: all current keywords across languages. -/
def getAllCurrentKeywords (c : TemporalDomainConfiguration) : List Str :=
  match alookup c.temporal_keywords (s2l "current") with
  | some kw => kw.en ++ kw.de ++ kw.fr ++ kw.es
  | none => []

/-- `get_all_historical_keywords`: historical keywords across languages plus
the names of every period classified as historical. -/
def getAllHistoricalKeywords (c : TemporalDomainConfiguration) : List Str :=
  (match alookup c.temporal_keywords (s2l "historical") with
   | some kw => kw.en ++ kw.de ++ kw.fr ++ kw.es
   | none => []) ++
  (c.period_identifiers.filter
      (fun pd => decide (pd.2.temporal_type = s2l "historical"))).flatMap
    (fun pd => pd.2.names)

/-- `detect_language`: first configured language one of whose indicators is
a substring of the lowercased query; defaults to `"en"`. -/
def detectLanguage (c : TemporalDomainConfiguration) (query : Str) : Str :=
  let ql := lowerStr query
  match c.language_detection.find? (fun li => li.2.any (fun ind => isSubstring ind ql)) with
  | some li => li.1
  | none => s2l "en"

/-- `get_expansion_terms`: expansion string for a type and language, empty
when either is missing. -/
def getExpansionTerms (c : TemporalDomainConfiguration)
    (expansionType lang : Str) : Str :=
  match alookup c.query_expansion expansionType with
  | none => []
  | some e =>
    if lang = s2l "de" then e.de
    else if lang = s2l "en" then e.en
    else if lang = s2l "fr" then e.fr
    else if lang = s2l "es" then e.es
    else []

/-- The historical keyword list, lowercased as the rewriter and the hybrid
filter both do at construction time. -/
def historicalKeywordsLower (c : TemporalDomainConfiguration) : List Str :=
  c.getAllHistoricalKeywords.map lowerStr

/-- The current keyword list, lowercased at construction time. -/
def currentKeywordsLower (c : TemporalDomainConfiguration) : List Str :=
  c.getAllCurrentKeywords.map lowerStr

end TemporalDomainConfiguration

/-! ## Domain-aware query rewriter (`query_rewriter.py`) -/

namespace QueryRewriter

open TemporalDomainConfiguration

/-- `_extract_entity_keywords_from_config`: the fixed entity trigger
vocabulary (configuration-independent in the source). -/
def extractEntityKeywordsFromConfig : List Str :=
  [s2l "party", s2l "parties", s2l "partei", s2l "parteien",
   s2l "fraktion", s2l "fraktionen", s2l "group", s2l "groups",
   s2l "faction", s2l "factions"]

/-- `_expand_entity_query`. -/
def expandEntityQuery (c : TemporalDomainConfiguration) (query ql : Str) : Str :=
  let language := c.detectLanguage ql
  let expansion := c.getExpansionTerms (s2l "entity_terms") language
  let expansion :=
    if expansion = [] then
      c.getExpansionTerms (s2l "entity_terms")
        (if language ≠ s2l "de" then s2l "de" else s2l "en")
    else expansion
  if expansion ≠ [] then query ++ s2l " " ++ expansion else query

/-- `_expand_historical_query`; when an entity trigger is also present and
entity expansion terms exist, they are appended after a space. -/
def expandHistoricalQuery (c : TemporalDomainConfiguration) (query ql : Str) : Str :=
  let language := c.detectLanguage ql
  let expansion := c.getExpansionTerms (s2l "temporal_historical") language
  let expansion :=
    if expansion = [] then
      c.getExpansionTerms (s2l "temporal_historical")
        (if language ≠ s2l "de" then s2l "de" else s2l "en")
    else expansion
  let entityTermsPresent := anyKeywordIn extractEntityKeywordsFromConfig ql
  let expansion :=
    if entityTermsPresent then
      let entityExpansion := c.getExpansionTerms (s2l "entity_terms") language
      if entityExpansion ≠ [] then expansion ++ s2l " " ++ entityExpansion
      else expansion
    else expansion
  if expansion ≠ [] then query ++ s2l " " ++ expansion else query

/-- `_expand_temporal_query`. -/
def expandTemporalQuery (c : TemporalDomainConfiguration) (query ql : Str) : Str :=
  let language := c.detectLanguage ql
  let expansion := c.getExpansionTerms (s2l "temporal_current") language
  let expansion :=
    if expansion = [] then
      c.getExpansionTerms (s2l "temporal_current")
        (if language ≠ s2l "de" then s2l "de" else s2l "en")
    else expansion
  if expansion ≠ [] then query ++ s2l " " ++ expansion else query

/-- `QueryRewriter.rewrite`. -/
def rewrite (cfg : Option TemporalDomainConfiguration) (query : Str) : Str :=
  if query = [] ∨ pyStrip query = [] then query
  else
    match cfg with
    | none => query
    | some c =>
      let ql := lowerStr query
      if anyKeywordIn c.historicalKeywordsLower ql then
        expandHistoricalQuery c query ql
      else if anyKeywordIn c.currentKeywordsLower ql then
        expandTemporalQuery c query ql
      else
        match alookup c.query_expansion (s2l "entity_terms") with
        | some _ =>
          if anyKeywordIn extractEntityKeywordsFromConfig ql then
            expandEntityQuery c query ql
          else query
        | none => query

/-- `QueryRewriter.should_rewrite`. -/
def shouldRewrite (cfg : Option TemporalDomainConfiguration) (query : Str) : Bool :=
  match cfg with
  | none => false
  | some c =>
    if query = [] then false
    else
      let ql := lowerStr query
      anyKeywordIn c.historicalKeywordsLower ql ||
      anyKeywordIn c.currentKeywordsLower ql ||
      anyKeywordIn extractEntityKeywordsFromConfig ql

end QueryRewriter

/-! ## Dynamic temporal retriever (`dynamic_temporal/retriever.py`) -/

/-- The observable effect of one `_retrieve` call: the text handed to the
external vector index, the `similarity_top_k` passed, and the optional
single metadata equality filter (field name, period value). -/
structure RetrievalCall where
  queryText : Str
  topK : Nat
  filt : Option (Str × Option Int)
deriving DecidableEq

namespace DynamicTemporalRetriever

open TemporalDomainConfiguration

/-- `_get_temporal_filter_mode`: word-boundary, case-insensitive keyword
search on the query; historical keywords take priority. -/
def getTemporalFilterMode (tdc : Option TemporalDomainConfiguration)
    (query : Str) : String :=
  match tdc with
  | none => "none"
  | some c =>
    let ql := lowerStr query
    if c.getAllHistoricalKeywords.any (fun kw => wordBoundaryMatch (lowerStr kw) ql) then
      "historical"
    else if c.getAllCurrentKeywords.any (fun kw => wordBoundaryMatch (lowerStr kw) ql) then
      "current"
    else "none"

/-- `_retrieve`: rewrite the query, pick the filter mode from the original
query text, and describe the resulting index call. -/
def retrieve (tdc : Option TemporalDomainConfiguration)
    (similarityTopK : Nat) (query : Str) : RetrievalCall :=
  let rewrittenQuery := QueryRewriter.rewrite tdc query
  let filterMode := getTemporalFilterMode tdc query
  match tdc with
  | some c =>
    if filterMode = "current" then
      ⟨rewrittenQuery, similarityTopK, some (c.temporalFieldName, c.currentPeriodValue)⟩
    else if filterMode = "historical" then
      ⟨rewrittenQuery, similarityTopK, some (c.temporalFieldName, c.historicalPeriodValue)⟩
    else ⟨rewrittenQuery, similarityTopK, none⟩
  | none => ⟨rewrittenQuery, similarityTopK, none⟩

end DynamicTemporalRetriever

/-! ## Hybrid filtering postprocessor (`hybrid_filter/postprocessor.py`) -/

/-- A retrieved candidate document (`NodeWithScore` flattened: the score of
the wrapper together with the text, metadata and optional embedding of the
inner node).  Metadata is a string-keyed, string-valued map. -/
structure Node where
  text : Str
  score : ℚ
  metadata : List (Str × Str)
  embedding : Option (List ℚ)
deriving DecidableEq

/-- `HybridFilterConfiguration`: the four filter parameters. -/
structure HybridFilterConfiguration where
  score_threshold : ℚ
  similarity_threshold : ℚ
  max_documents : Nat
  enable_llm_filter : Bool
deriving DecidableEq

namespace HybridFilterPostprocessor

open TemporalDomainConfiguration

/-- `_filter_by_score`: keep nodes with `score >= score_threshold`. -/
def filterByScore (pp : HybridFilterConfiguration) (nodes : List Node) : List Node :=
  nodes.filter (fun n => decide (n.score ≥ pp.score_threshold))

/-- The period resolution inside `_filter_by_temporal_relevance`: read the
temporal metadata field; when it is empty and the `document_number` field
contains `"/"`, fall back to the prefix of `document_number` before the
first slash. -/
def resolvePeriod (fieldName : Str) (n : Node) : Str :=
  let period := (alookup n.metadata fieldName).getD []
  let documentNumber := (alookup n.metadata (s2l "document_number")).getD []
  if period = [] ∧ documentNumber.contains '/' then takeUntilSlash documentNumber
  else period

/-- Keep-rule of the historical branch: resolved period equals the
stringified historical period value. -/
def keepHistoricalNode (c : TemporalDomainConfiguration) (n : Node) : Bool :=
  decide (resolvePeriod c.temporalFieldName n = pyStrOptInt c.historicalPeriodValue)

/-- Keep-rule of the current branch: resolved period equals the stringified
current period value, or is empty (unknown). -/
def keepCurrentNode (c : TemporalDomainConfiguration) (n : Node) : Bool :=
  decide (resolvePeriod c.temporalFieldName n = pyStrOptInt c.currentPeriodValue
    ∨ resolvePeriod c.temporalFieldName n = [])

/-- `_filter_by_temporal_relevance`: stage 2.  Returns the filtered nodes
and whether a strict historical filter was applied. -/
def filterByTemporalRelevance (tdc : Option TemporalDomainConfiguration)
    (nodes : List Node) (query : Str) : List Node × Bool :=
  match tdc with
  | none => (nodes, false)
  | some c =>
    let ql := lowerStr query
    if anyKeywordIn c.historicalKeywordsLower ql then
      let filtered := nodes.filter (keepHistoricalNode c)
      if filtered = [] then (nodes, false) else (filtered, true)
    else if anyKeywordIn c.currentKeywordsLower ql then
      let filtered := nodes.filter (keepCurrentNode c)
      if filtered = [] then (nodes, false) else (filtered, false)
    else (nodes, false)

/-- Dot product of two embedding vectors. -/
def dotProduct : List ℚ → List ℚ → ℚ
  | [], _ => 0
  | _, [] => 0
  | a :: s, b :: t => a * b + dotProduct s t

/-- Squared Euclidean norm of an embedding vector. -/
def sqNorm (v : List ℚ) : ℚ := dotProduct v v

/-- `_cosine_similarity(v1, v2) >= θ`, decided in exact arithmetic.  The
source computes `dot / (norm1 * norm2)` (and `0.0` when either norm is
zero) and compares with the threshold; squaring removes the square roots:
for `θ ≥ 0` the comparison holds iff `dot ≥ 0` and
`θ² · (‖v1‖²·‖v2‖²) ≤ dot²`; for `θ < 0` it holds iff `dot ≥ 0` or
`dot² ≤ θ² · (‖v1‖²·‖v2‖²)`. -/
def cosineSimilarityGE (θ : ℚ) (v1 v2 : List ℚ) : Bool :=
  let d := dotProduct v1 v2
  let s1 := sqNorm v1
  let s2 := sqNorm v2
  if s1 = 0 ∨ s2 = 0 then decide (θ ≤ 0)
  else if 0 ≤ θ then decide (0 ≤ d ∧ θ ^ 2 * (s1 * s2) ≤ d ^ 2)
  else decide (0 ≤ d ∨ d ^ 2 ≤ θ ^ 2 * (s1 * s2))

/-- `_are_nodes_similar`: embedding cosine similarity at least
`similarity_threshold`; nodes lacking an embedding are never similar. -/
def areNodesSimilar (pp : HybridFilterConfiguration) (n1 n2 : Node) : Bool :=
  match n1.embedding, n2.embedding with
  | some e1, some e2 => cosineSimilarityGE pp.similarity_threshold e1 e2
  | _, _ => false

/-- Pair each list element with its position. -/
def enumFrom : Nat → List α → List (Nat × α)
  | _, [] => []
  | i, a :: s => (i, a) :: enumFrom (i + 1) s

/-- The loop of `_deduplicate_semantically` over index-paired nodes:
`kept` is the accumulated kept list, `skip` the marked index set. -/
def dedupGo (sim : Node → Node → Bool) :
    List (Nat × Node) → List (Nat × Node) → List Nat → List (Nat × Node)
  | [], _, _ => []
  | (i, n) :: rest, kept, skip =>
    if skip.contains i then dedupGo sim rest kept skip
    else if kept.any (fun k => sim n k.2) then dedupGo sim rest kept skip
    else
      (i, n) :: dedupGo sim rest (kept ++ [(i, n)])
        (skip ++ (rest.filter (fun jm => sim n jm.2)).map Prod.fst)

/-- `_deduplicate_semantically`: stage 3. -/
def deduplicateSemantically (pp : HybridFilterConfiguration)
    (nodes : List Node) : List Node :=
  if nodes.length ≤ 1 then nodes
  else (dedupGo (areNodesSimilar pp) (enumFrom 0 nodes) [] []).map Prod.snd

/-- Whether a successful response keeps the document: the stripped,
uppercased response text starts with `"YES"`. -/
def responseKeeps (response : Str) : Bool :=
  isPrefixList (s2l "YES") (pyUpper (pyStrip response))

/-- `_filter_by_llm_relevance`: stage 4.  The language-model collaborator
is modelled as a function from the query and the node (which determine the
prompt) to either a response text or an exception. -/
def filterByLlmRelevance (llm : Str → Node → Except Unit Str) (query : Str) :
    List Node → List Node
  | [] => []
  | n :: rest =>
    match llm query n with
    | Except.ok response =>
      if responseKeeps response then n :: filterByLlmRelevance llm query rest
      else filterByLlmRelevance llm query rest
    | Except.error _ => n :: filterByLlmRelevance llm query rest

/-- `_postprocess_nodes`: the five-stage pipeline.  `llm` is `none` when no
language model was configured (`self._llm is None`). -/
def postprocessNodes (pp : HybridFilterConfiguration)
    (tdc : Option TemporalDomainConfiguration)
    (llm : Option (Str → Node → Except Unit Str))
    (queryBundle : Option Str) (nodes : List Node) : List Node :=
  if nodes = [] then nodes
  else
    let nodes1 := filterByScore pp nodes
    let step2 :=
      match queryBundle with
      | some q => filterByTemporalRelevance tdc nodes1 q
      | none => (nodes1, false)
    let nodes3 := deduplicateSemantically pp step2.1
    let nodes4 :=
      match llm, queryBundle with
      | some llmF, some q =>
        if pp.enable_llm_filter ∧ ¬ step2.2 then filterByLlmRelevance llmF q nodes3
        else nodes3
      | _, _ => nodes3
    nodes4.take pp.max_documents

end HybridFilterPostprocessor

/-! ## Bundestag party extractor (`party_extractor.py`) -/

namespace PartyExtractor

/-- The `NON_PARTY_KEYWORDS` exclusion vocabulary. -/
def NON_PARTY_KEYWORDS : List Str :=
  [s2l "Bundeskanzler", s2l "Bundeskanzlerin", s2l "Bundesminister",
   s2l "Bundesministerin", s2l "Bundespräsident", s2l "Bundespräsidentin",
   s2l "Präsident", s2l "Präsidentin", s2l "Staatsminister",
   s2l "Staatsministerin", s2l "Staatssekretär", s2l "Staatssekretärin",
   s2l "Berlin", s2l "Bonn", s2l "parteilos", s2l "fraktionslos", s2l "Gast",
   s2l "EU", s2l "UN", s2l "NATO", s2l "OSZE", s2l "WHO", s2l "IWF",
   s2l "EZB", s2l "BMWE", s2l "BMI", s2l "BMF", s2l "BMAS", s2l "BMZ",
   s2l "BMVI", s2l "BMVg", s2l "BT", s2l "BR", s2l "USA", s2l "UK",
   s2l "FR", s2l "TOP", s2l "ZP"]

/-- Length of the longest run of characters satisfying `p` at the front. -/
def countWhile (p : Char → Bool) (s : Str) : Nat := (s.takeWhile p).length

/-- Character class `[A-ZÄÖÜa-zäöüß0-9\.\s]` of the speaker-name middle. -/
def speakerNameChar (c : Char) : Bool :=
  pyIsAlphaChar c || c.isDigit || c = '.' || pyIsSpace c

/-- Match of the regex tail `\s+\(([^)]+)\)` at position `p` of `t`:
returns the captured parenthesized text and the end position. -/
def matchTail (t : Str) (p : Nat) : Option (Str × Nat) :=
  let w := countWhile pyIsSpace (t.drop p)
  if w = 0 then none
  else
    match (t.drop (p + w)).head? with
    | some '(' =>
      let q0 := p + w + 1
      let m := countWhile (fun c => c != ')') (t.drop q0)
      if m = 0 then none
      else
        match (t.drop (q0 + m)).head? with
        | some c => if c = ')' then some ((t.drop q0).take m, q0 + m + 1) else none
        | none => none
    | _ => none

/-- The lazy middle `[A-ZÄÖÜa-zäöüß0-9\.\s]*?` of the speaker pattern:
starting at `j`, try the shortest expansion whose continuation matches
`matchTail`, extending one middle character at a time. -/
def tryMiddle (t : Str) : Nat → Nat → Option (Str × Nat)
  | j, 0 => matchTail t j
  | j, fuel + 1 =>
    match matchTail t j with
    | some r => some r
    | none =>
      match (t.drop j).head? with
      | some c => if speakerNameChar c then tryMiddle t (j + 1) fuel else none
      | none => none

/-- `re.findall` of the speaker pattern
`(\b[A-ZÄÖÜa-zäöüß][A-ZÄÖÜa-zäöüß0-9\.\s]*?)\s+\(([^)]+)\)`, collecting the
second capture group: scan left to right, at each word-boundary letter try
the lazy match, and continue after a successful match. -/
def scanSpeakers (t : Str) : Nat → Nat → List Str
  | _, 0 => []
  | pos, fuel + 1 =>
    match (t.drop pos).head? with
    | none => []
    | some c =>
      if pyIsAlphaChar c ∧ (pos = 0 ∨ wordCharAt t (pos - 1) = false) then
        match tryMiddle t (pos + 1) (t.length - pos) with
        | some (cand, e) => cand :: scanSpeakers t e fuel
        | none => scanSpeakers t (pos + 1) fuel
      else scanSpeakers t (pos + 1) fuel

/-- Split on `'/'` (Python `s.split("/")`). -/
def splitOnSlash : Str → List Str
  | [] => [[]]
  | c :: rest =>
    if c = '/' then [] :: splitOnSlash rest
    else
      match splitOnSlash rest with
      | s :: ss => (c :: s) :: ss
      | [] => [[c]]

/-- `_is_likely_party`: the heuristic party-name classifier. -/
def isLikelyParty (text : Str) : Bool :=
  let tc := pyStrip text
  if tc = [] ∨ tc.length < 2 then false
  else if tc.length > 25 then false
  else if NON_PARTY_KEYWORDS.any (fun kw => isSubstring kw tc) then false
  else if ¬ tc.any pyIsUpperChar then false
  else
    let uppercaseCount := (tc.filter pyIsUpperChar).length
    let alphaCount := (tc.filter pyIsAlphaChar).length
    if alphaCount = 0 then false
    else if 2 ≤ tc.length ∧ tc.length ≤ 6 then
      decide (alphaCount = tc.length ∧ uppercaseCount ≥ 2)
    else if tc.contains '/' then
      decide (2 * uppercaseCount ≥ alphaCount) &&
        (let parts := splitOnSlash tc
         decide (parts.length = 2) && parts.all (fun p => p.any pyIsAlphaChar))
    else if isPrefixList (s2l "Die ") tc || isPrefixList (s2l "DIE ") tc then
      match (pyStrip (tc.drop 4)).head? with
      | some c => pyIsUpperChar c
      | none => false
    else if isPrefixList (s2l "Bündnis") tc || isPrefixList (s2l "BÜNDNIS") tc
        || isPrefixList (s2l "Bund") tc then true
    else false

/-- Increment the count of `key` in a counter, appending a fresh entry when
absent (Python `Counter` insertion order). -/
def bumpCount (key : Str) : List (Str × Nat) → List (Str × Nat)
  | [] => [(key, 1)]
  | (k, v) :: rest =>
    if k = key then (k, v + 1) :: rest else (k, v) :: bumpCount key rest

/-- `Counter(l)`: occurrence counts in first-occurrence order. -/
def countOcc (l : List Str) : List (Str × Nat) :=
  l.foldl (fun acc s => bumpCount s acc) []

/-- Count of `key` in a counter (0 when absent). -/
def getCount (counts : List (Str × Nat)) (key : Str) : Nat :=
  (alookup counts key).getD 0

/-- Union-find `find` without path compression (the compression in the
source only speeds lookups up); `fuel` bounds the parent-chain length. -/
def ufFind (parent : List (Str × Str)) : Nat → Str → Str
  | 0, p => p
  | fuel + 1, p =>
    match alookup parent p with
    | some q => if q = p then p else ufFind parent fuel q
    | none => p

/-- Reassign the parent of `key` to `value`. -/
def setParent (parent : List (Str × Str)) (key value : Str) : List (Str × Str) :=
  parent.map (fun kv => if kv.1 = key then (kv.1, value) else kv)

/-- The canonical-preference key of a root: (contains `/`, length, raw
mention count). -/
def rootKey (counts : List (Str × Nat)) (r : Str) : Nat × Nat × Nat :=
  (if r.contains '/' then 1 else 0, r.length, getCount counts r)

/-- Python tuple comparison `a >= b` on the preference triples. -/
def tripleGE (a b : Nat × Nat × Nat) : Bool :=
  if a.1 ≠ b.1 then decide (a.1 > b.1)
  else if a.2.1 ≠ b.2.1 then decide (a.2.1 > b.2.1)
  else decide (a.2.2 ≥ b.2.2)

/-- Union-find `union`: the root with the larger preference triple becomes
the parent of the other. -/
def ufUnion (counts : List (Str × Nat)) (fuel : Nat)
    (parent : List (Str × Str)) (p1 p2 : Str) : List (Str × Str) :=
  let r1 := ufFind parent fuel p1
  let r2 := ufFind parent fuel p2
  if r1 = r2 then parent
  else if tripleGE (rootKey counts r1) (rootKey counts r2) then setParent parent r2 r1
  else setParent parent r1 r2

/-- Connector words excluded from the shared-word heuristic. -/
def CONNECTOR_WORDS : List Str :=
  [s2l "DIE", s2l "DER", s2l "DAS", s2l "UND", s2l "VON"]

/-- The maximal runs of `[A-ZÄÖÜ]` characters of length at least 3 with a
word boundary on both sides (regex `\b[A-ZÄÖÜ]{3,}\b` via `findall`);
`prev` is the character before the current position. -/
def significantWordsGo : Nat → Option Char → Str → List Str
  | 0, _, _ => []
  | _ + 1, _, [] => []
  | fuel + 1, prev, c :: rest =>
    if pyIsUpperChar c then
      let run := c :: rest.takeWhile pyIsUpperChar
      let after := rest.dropWhile pyIsUpperChar
      let okBefore := match prev with
        | none => true
        | some pc => ¬ isWordChar pc
      let okAfter := match after.head? with
        | none => true
        | some ac => ¬ isWordChar ac
      (if decide (run.length ≥ 3) && okBefore && okAfter then [run] else []) ++
        significantWordsGo fuel run.getLast? after
    else significantWordsGo fuel (some c) rest

/-- `re.findall(r"\b[A-ZÄÖÜ]{3,}\b", s)`. -/
def significantWords (s : Str) : List Str :=
  significantWordsGo (s.length + 1) none s

/-- `_are_related_parties`: two names are related when they share a
significant uppercase word that is not a connector word. -/
def areRelatedParties (party1 party2 : Str) : Bool :=
  let w1 := significantWords (pyUpper party1)
  let w2 := significantWords (pyUpper party2)
  let shared := w1.filter (fun w => w2.contains w)
  let meaningful := shared.filter (fun w => ¬ CONNECTOR_WORDS.contains w)
  ¬ meaningful.isEmpty

/-- The pair loop of `_group_related_parties`: union every related pair
`(party1, party2)` with `party1` before `party2` in candidate order. -/
def ufProcessPairs (counts : List (Str × Nat)) (fuel : Nat) :
    List Str → List (Str × Str) → List (Str × Str)
  | [], parent => parent
  | p1 :: rest, parent =>
    let parent := rest.foldl (fun par p2 =>
      let isSub := isSubstring (pyUpper p1) (pyUpper p2)
        || isSubstring (pyUpper p2) (pyUpper p1)
      if isSub || areRelatedParties p1 p2 then ufUnion counts fuel par p1 p2
      else par) parent
    ufProcessPairs counts fuel rest parent

/-- Append `party` to the group of `root`, keeping first-insertion order of
roots (Python `dict` semantics). -/
def addToGroups (root party : Str) : List (Str × List Str) → List (Str × List Str)
  | [] => [(root, [party])]
  | (k, v) :: rest =>
    if k = root then (k, v ++ [party]) :: rest
    else (k, v) :: addToGroups root party rest

/-- `_group_related_parties`: canonical root mapped to its member names. -/
def groupRelatedParties (counts : List (Str × Nat)) : List (Str × List Str) :=
  let parties := counts.map Prod.fst
  let parent0 := parties.map (fun p => (p, p))
  let fuel := parties.length
  let parent := ufProcessPairs counts fuel parties parent0
  parties.foldl (fun groups p => addToGroups (ufFind parent fuel p) p groups) []

/-- One extracted entity group (the `extracted_at` wall-clock timestamp of
the source is omitted from the model). -/
structure Fraction where
  name : Str
  variations : List Str
  type : Str
  mention_count : Nat
deriving DecidableEq

/-- The extractor result: entity groups, source tag and confidence label. -/
structure ExtractionResult where
  fractions : List Fraction
  extraction_source : Str
  confidence : Str
deriving DecidableEq

/-- `_empty_result`. -/
def emptyResult : ExtractionResult :=
  { fractions := [], extraction_source := s2l "none", confidence := s2l "low" }

/-- String comparison `a < b` by code point (Python `sorted`). -/
def strLt : Str → Str → Bool
  | [], [] => false
  | [], _ :: _ => true
  | _ :: _, [] => false
  | a :: s, b :: t => if a = b then strLt s t else decide (a < b)

/-- Insert into an ascending list. -/
def insertStr (x : Str) : List Str → List Str
  | [] => [x]
  | y :: rest => if strLt x y then x :: y :: rest else y :: insertStr x rest

/-- Python `sorted` on strings. -/
def sortStrings (l : List Str) : List Str :=
  l.foldl (fun acc x => insertStr x acc) []

/-- Stable insertion by descending `mention_count`. -/
def insertByCountDesc (f : Fraction) : List Fraction → List Fraction
  | [] => [f]
  | g :: rest =>
    if g.mention_count ≥ f.mention_count then g :: insertByCountDesc f rest
    else f :: g :: rest

/-- Python stable `sort(key=mention_count, reverse=True)`. -/
def sortByCountDesc (l : List Fraction) : List Fraction :=
  l.foldl (fun acc f => insertByCountDesc f acc) []

/-- `_calculate_confidence`. -/
def calculateConfidence (fractions : List Fraction)
    (partyCounts : List (Str × Nat)) : Str :=
  let numFractions := fractions.length
  let totalMentions := (partyCounts.map Prod.snd).sum
  if numFractions ≥ 4 ∨ (numFractions ≥ 2 ∧ totalMentions ≥ 20) then s2l "high"
  else if numFractions ≥ 2 ∨ totalMentions ≥ 10 then s2l "medium"
  else s2l "low"

/-- `extract_from_protocol_text`. -/
def extractFromProtocolText (text : Str) : ExtractionResult :=
  if text = [] then emptyResult
  else
    let candidates := (scanSpeakers text 0 (text.length + 1)).map pyStrip
    let partyCandidates := candidates.filter isLikelyParty
    if partyCandidates = [] then emptyResult
    else
      let partyCounts := countOcc partyCandidates
      let filteredPartyCounts := partyCounts.filter (fun kv => decide (kv.2 ≥ 2))
      if filteredPartyCounts = [] then emptyResult
      else
        let partyGroups := groupRelatedParties filteredPartyCounts
        let fractions := partyGroups.map (fun g =>
          { name := g.1
            variations := sortStrings g.2
            type := s2l "fraction"
            mention_count := (g.2.map (getCount filteredPartyCounts)).sum
            : Fraction })
        let fractions := sortByCountDesc fractions
        let confidence := calculateConfidence fractions filteredPartyCounts
        { fractions := fractions
          extraction_source := s2l "protocol_text"
          confidence := confidence }

/-- `extract_from_speaker_party`: the known-clean single-affiliation path. -/
def extractFromSpeakerParty (party : Str) : ExtractionResult :=
  if party = [] then emptyResult
  else
    { fractions := [{ name := party, variations := [party],
                      type := s2l "fraction", mention_count := 1 }]
      extraction_source := s2l "speaker_metadata"
      confidence := s2l "low" }

end PartyExtractor

/-! ## Statement helpers and concrete instances -/

/-- The keep-rule stage 2 would use for a query, mirroring its dispatch:
historical keywords (checked first) select the historical keep-rule,
current keywords the current keep-rule, otherwise no filtering happens. -/
def temporalKeepPred (c : TemporalDomainConfiguration) (q : Str) :
    Option (Node → Bool) :=
  if anyKeywordIn c.historicalKeywordsLower (lowerStr q) then
    some (HybridFilterPostprocessor.keepHistoricalNode c)
  else if anyKeywordIn c.currentKeywordsLower (lowerStr q) then
    some (HybridFilterPostprocessor.keepCurrentNode c)
  else none

/-- Whether the query contains (as a case-insensitive substring) any
keyword configured in the Domain Configuration, i.e. any current or
historical keyword. -/
def containsConfiguredKeyword (c : TemporalDomainConfiguration) (q : Str) : Bool :=
  anyKeywordIn c.historicalKeywordsLower (lowerStr q) ||
  anyKeywordIn c.currentKeywordsLower (lowerStr q)

/-- Whether the query contains a word of the fixed entity-trigger
vocabulary. -/
def containsEntityTrigger (q : Str) : Bool :=
  anyKeywordIn QueryRewriter.extractEntityKeywordsFromConfig (lowerStr q)

/-- Order of the confidence labels: low < medium < high. -/
def confidenceRank (s : Str) : Nat :=
  if s = s2l "high" then 2 else if s = s2l "medium" then 1 else 0

/-- A small Bundestag-like domain configuration used as concrete input. -/
def sampleConfig : TemporalDomainConfiguration :=
  { name := s2l "bundestag"
    metadata_schema :=
      { temporal_field := some (s2l "legislature_period")
        current_period := some 21
        historical_period := some 20 }
    temporal_keywords :=
      [(s2l "current",
        { en := [s2l "current"], de := [s2l "aktuell"], fr := [], es := [] }),
       (s2l "historical",
        { en := [s2l "previous"], de := [], fr := [], es := [] })]
    period_identifiers :=
      [(s2l "20",
        { names := [s2l "WP20"], years := [2021], temporal_type := s2l "historical" })]
    query_expansion :=
      [(s2l "temporal_current",
        { de := [], en := s2l "21st legislature", fr := [], es := [] }),
       (s2l "temporal_historical",
        { de := [], en := s2l "20th legislature", fr := [], es := [] }),
       (s2l "entity_terms",
        { de := [], en := s2l "parliament factions", fr := [], es := [] })]
    language_detection := [(s2l "en", [s2l "what"])] }

/-- A configuration exposing only an `entity_terms` expansion template and
no temporal keywords at all. -/
def configEntityOnly : TemporalDomainConfiguration :=
  { name := s2l "d"
    metadata_schema := { temporal_field := none, current_period := none, historical_period := none }
    temporal_keywords := []
    period_identifiers := []
    query_expansion :=
      [(s2l "entity_terms",
        { de := [], en := s2l "parliament factions", fr := [], es := [] })]
    language_detection := [] }

/-- A configuration with no query-expansion templates at all. -/
def configNoExpansion : TemporalDomainConfiguration :=
  { name := s2l "d"
    metadata_schema := { temporal_field := none, current_period := none, historical_period := none }
    temporal_keywords := []
    period_identifiers := []
    query_expansion := []
    language_detection := [] }

/-- A document from the current legislature period. -/
def nodeCurrent : Node :=
  { text := s2l "a", score := 1,
    metadata := [(s2l "legislature_period", s2l "21")], embedding := none }

/-- A second current-period document. -/
def nodeCurrentB : Node :=
  { text := s2l "b", score := 1,
    metadata := [(s2l "legislature_period", s2l "21")], embedding := none }

/-- A third current-period document. -/
def nodeCurrentC : Node :=
  { text := s2l "c", score := 1,
    metadata := [(s2l "legislature_period", s2l "21")], embedding := none }

/-- A language-model oracle that raises on `nodeCurrentB` and accepts every
other document. -/
def llmFailsOnB : Str → Node → Except Unit Str :=
  fun _ n => if n = nodeCurrentB then Except.error () else Except.ok (s2l "yes - relevant")

/-- A sample filter configuration. -/
def sampleFilterConfig : HybridFilterConfiguration :=
  { score_threshold := 0, similarity_threshold := 1,
    max_documents := 8, enable_llm_filter := false }

/-- A sample single-member fraction. -/
def fracSPD : PartyExtractor.Fraction :=
  { name := s2l "SPD", variations := [s2l "SPD"],
    type := s2l "fraction", mention_count := 5 }

/-- A second sample fraction. -/
def fracFDP : PartyExtractor.Fraction :=
  { name := s2l "FDP", variations := [s2l "FDP"],
    type := s2l "fraction", mention_count := 5 }

/-! ## Theorems -/

/-- C8: on text containing "X (CDU)", "Y (CSU)", "Z (CDU/CSU)" each twice,
`extract_from_protocol_text` returns exactly one entity group, whose
variation set has size 3, whose mention count is 6, and whose canonical
name is the slash-containing variant "CDU/CSU". -/
theorem claim_C8_entity_grouping :
    (PartyExtractor.extractFromProtocolText
        (s2l "X (CDU) Y (CSU) Z (CDU/CSU) X (CDU) Y (CSU) Z (CDU/CSU)")).fractions
      = [{ name := s2l "CDU/CSU",
           variations := [s2l "CDU", s2l "CDU/CSU", s2l "CSU"],
           type := s2l "fraction", mention_count := 6 }] := by decide

/-- C9: the extractor's confidence label equals the stated threshold
formula on the number of groups and the total mention count, and, for a
fixed counter (hence fixed total mentions), the label is monotone in the
number of groups under low < medium < high. -/
theorem claim_C9_confidence (fr1 fr2 : List PartyExtractor.Fraction)
    (pc : List (Str × Nat)) (h : fr1.length ≤ fr2.length) :
    PartyExtractor.calculateConfidence fr1 pc =
      (if fr1.length ≥ 4 ∨ (fr1.length ≥ 2 ∧ (pc.map Prod.snd).sum ≥ 20) then s2l "high"
       else if fr1.length ≥ 2 ∨ (pc.map Prod.snd).sum ≥ 10 then s2l "medium"
       else s2l "low")
    ∧ confidenceRank (PartyExtractor.calculateConfidence fr1 pc)
        ≤ confidenceRank (PartyExtractor.calculateConfidence fr2 pc) := by
  constructor
  · rfl
  · unfold PartyExtractor.calculateConfidence
    dsimp only
    split_ifs <;> first | decide | (exfalso; omega)

/-- Witness for C9 at one group versus two groups over the same counter. -/
theorem claim_C9_confidence_witness :
    confidenceRank (PartyExtractor.calculateConfidence [fracSPD] [(s2l "SPD", 5)])
      ≤ confidenceRank (PartyExtractor.calculateConfidence [fracSPD, fracFDP] [(s2l "SPD", 5)]) :=
  (claim_C9_confidence [fracSPD] [fracSPD, fracFDP] [(s2l "SPD", 5)] (by decide)).2

/-- Stage 4 unrolled: the relevance filter keeps a document exactly when
the model call raised or the response text keeps it. -/
theorem filterByLlmRelevance_eq_filter (llm : Str → Node → Except Unit Str)
    (q : Str) (nodes : List Node) :
    HybridFilterPostprocessor.filterByLlmRelevance llm q nodes
      = nodes.filter (fun n =>
          match llm q n with
          | Except.error _ => true
          | Except.ok r => HybridFilterPostprocessor.responseKeeps r) := by
  induction nodes with
  | nil => rfl
  | cons n rest ih =>
    rw [List.filter_cons]
    unfold HybridFilterPostprocessor.filterByLlmRelevance
    cases h : llm q n with
    | error e => simp [h, ih]
    | ok r =>
      by_cases hk : HybridFilterPostprocessor.responseKeeps r = true
      · simp [h, hk, ih]
      · simp [h, hk, ih]

/-- C5: in stage 4, a document whose language-model call raises an
exception is kept and no exception escapes (the output is the total
filter below); a document whose call succeeds is kept iff the stripped
response starts with "YES" case-insensitively. -/
theorem claim_C5_relevance_fail_open (llm : Str → Node → Except Unit Str)
    (q : Str) (nodes : List Node) :
    (HybridFilterPostprocessor.filterByLlmRelevance llm q nodes
       = nodes.filter (fun n =>
           match llm q n with
           | Except.error _ => true
           | Except.ok r => HybridFilterPostprocessor.responseKeeps r))
    ∧ (∀ n ∈ nodes, ∀ e, llm q n = Except.error e →
         n ∈ HybridFilterPostprocessor.filterByLlmRelevance llm q nodes)
    ∧ (∀ n ∈ nodes, ∀ r, llm q n = Except.ok r →
         (n ∈ HybridFilterPostprocessor.filterByLlmRelevance llm q nodes
            ↔ HybridFilterPostprocessor.responseKeeps r = true)) := by
  refine ⟨filterByLlmRelevance_eq_filter llm q nodes, ?_, ?_⟩
  · intro n hn e he
    rw [filterByLlmRelevance_eq_filter]
    exact List.mem_filter.mpr ⟨hn, by simp [he]⟩
  · intro n hn r hr
    rw [filterByLlmRelevance_eq_filter]
    constructor
    · intro hmem
      have hkeep := (List.mem_filter.mp hmem).2
      simpa [hr] using hkeep
    · intro hk
      exact List.mem_filter.mpr ⟨hn, by simp [hr, hk]⟩

/-- Witness for C5: with a model that raises on the second of three
documents (and accepts the others), that document is still returned. -/
theorem claim_C5_relevance_fail_open_witness :
    nodeCurrentB ∈ HybridFilterPostprocessor.filterByLlmRelevance llmFailsOnB
      (s2l "q") [nodeCurrent, nodeCurrentB, nodeCurrentC] :=
  (claim_C5_relevance_fail_open llmFailsOnB (s2l "q")
      [nodeCurrent, nodeCurrentB, nodeCurrentC]).2.1
    nodeCurrentB (by decide) () rfl

/-- C1: whenever stage 2 detects a temporal mode but its keep-rule would
keep no document, the stage returns the input list unchanged and reports
that no (historical) filter was applied. -/
theorem claim_C1_temporal_failsafe (c : TemporalDomainConfiguration)
    (nodes : List Node) (q : Str) (p : Node → Bool)
    (hp : temporalKeepPred c q = some p)
    (hempty : nodes.filter p = []) :
    HybridFilterPostprocessor.filterByTemporalRelevance (some c) nodes q = (nodes, false) := by
  unfold temporalKeepPred at hp
  unfold HybridFilterPostprocessor.filterByTemporalRelevance
  by_cases h1 : anyKeywordIn c.historicalKeywordsLower (lowerStr q) = true
  · rw [if_pos h1] at hp
    obtain rfl := Option.some.inj hp
    simp [h1, hempty]
  · rw [if_neg h1] at hp
    by_cases h2 : anyKeywordIn c.currentKeywordsLower (lowerStr q) = true
    · rw [if_pos h2] at hp
      obtain rfl := Option.some.inj hp
      simp [h1, h2, hempty]
    · rw [if_neg h2] at hp
      exact absurd hp (by simp)

/-- Witness for C1: a historical query over a single current-period
document; the historical keep-rule keeps nothing, so the stage returns the
document unchanged with the historical flag unset. -/
theorem claim_C1_temporal_failsafe_witness :
    HybridFilterPostprocessor.filterByTemporalRelevance (some sampleConfig)
      [nodeCurrent] (s2l "previous laws") = ([nodeCurrent], false) :=
  claim_C1_temporal_failsafe sampleConfig [nodeCurrent] (s2l "previous laws")
    (HybridFilterPostprocessor.keepHistoricalNode sampleConfig) rfl (by decide)

/-- C3: with a current keyword matched (and no historical keyword) and at
least one document surviving, stage 2 keeps exactly the documents whose
resolved period equals the configured current value or is empty, the
period being resolved by the metadata field with document-number fallback
(`resolvePeriod`). -/
theorem claim_C3_current_keep_rule (c : TemporalDomainConfiguration)
    (q : Str) (nodes : List Node)
    (hHist : anyKeywordIn c.historicalKeywordsLower (lowerStr q) = false)
    (hCur : anyKeywordIn c.currentKeywordsLower (lowerStr q) = true)
    (hne : nodes.filter (HybridFilterPostprocessor.keepCurrentNode c) ≠ []) :
    HybridFilterPostprocessor.filterByTemporalRelevance (some c) nodes q
      = (nodes.filter (HybridFilterPostprocessor.keepCurrentNode c), false)
    ∧ ∀ n, HybridFilterPostprocessor.keepCurrentNode c n = true ↔
        (HybridFilterPostprocessor.resolvePeriod c.temporalFieldName n
           = pyStrOptInt c.currentPeriodValue
         ∨ HybridFilterPostprocessor.resolvePeriod c.temporalFieldName n = []) := by
  constructor
  · unfold HybridFilterPostprocessor.filterByTemporalRelevance
    simp [hHist, hCur, hne]
  · intro n
    simp [HybridFilterPostprocessor.keepCurrentNode]

/-- Witness for C3: "current laws" over one current-period document. -/
theorem claim_C3_current_keep_rule_witness :
    HybridFilterPostprocessor.filterByTemporalRelevance (some sampleConfig)
      [nodeCurrent] (s2l "current laws") = ([nodeCurrent], false) :=
  ((claim_C3_current_keep_rule sampleConfig (s2l "current laws") [nodeCurrent]
      (by decide) (by decide) (by decide)).1).trans (by decide)

/-- `rewrite` is the identity without a Domain Configuration. -/
theorem rewrite_none (q : Str) : QueryRewriter.rewrite none q = q := by
  unfold QueryRewriter.rewrite
  by_cases h : q = [] ∨ pyStrip q = []
  · rw [if_pos h]
  · rw [if_neg h]

/-- `rewrite` is the identity on empty or whitespace-only queries. -/
theorem rewrite_empty (cfg : Option TemporalDomainConfiguration) (q : Str)
    (h : q = [] ∨ pyStrip q = []) : QueryRewriter.rewrite cfg q = q := by
  unfold QueryRewriter.rewrite
  rw [if_pos h]

/-- `rewrite` is the identity when no historical keyword, no current
keyword, and no active entity trigger matches. -/
theorem rewrite_no_match (c : TemporalDomainConfiguration) (q : Str)
    (hh : anyKeywordIn c.historicalKeywordsLower (lowerStr q) = false)
    (hc : anyKeywordIn c.currentKeywordsLower (lowerStr q) = false)
    (hent : alookup c.query_expansion (s2l "entity_terms") = none
      ∨ anyKeywordIn QueryRewriter.extractEntityKeywordsFromConfig (lowerStr q) = false) :
    QueryRewriter.rewrite (some c) q = q := by
  unfold QueryRewriter.rewrite
  by_cases h : q = [] ∨ pyStrip q = []
  · rw [if_pos h]
  · rw [if_neg h]
    simp only [hh, hc, Bool.false_eq_true, if_false]
    rcases hent with hnone | htrig
    · rw [hnone]
    · cases halo : alookup c.query_expansion (s2l "entity_terms") with
      | none => rfl
      | some e => simp [htrig]

/-- C6 counterexample: with a configuration exposing only an
`entity_terms` template, the query "party" contains no configured
(temporal) keyword, yet `rewrite` changes it — the claim's third clause is
false as stated. -/
theorem claim_C6_counterexample :
    containsConfiguredKeyword configEntityOnly (s2l "party") = false
    ∧ QueryRewriter.rewrite (some configEntityOnly) (s2l "party") ≠ s2l "party" := by
  decide

/-- C6 (amended): `rewrite` returns the query unchanged on empty or
whitespace-only input, without a Domain Configuration, and whenever the
query contains no configured keyword and additionally no entity-trigger
word is active (no `entity_terms` template, or no trigger in the query). -/
theorem claim_C6_rewrite_noop (cfg : Option TemporalDomainConfiguration) (q : Str) :
    ((q = [] ∨ pyStrip q = []) → QueryRewriter.rewrite cfg q = q)
    ∧ QueryRewriter.rewrite none q = q
    ∧ (∀ c, cfg = some c →
        containsConfiguredKeyword c q = false →
        (alookup c.query_expansion (s2l "entity_terms") = none
          ∨ containsEntityTrigger q = false) →
        QueryRewriter.rewrite cfg q = q) := by
  refine ⟨fun h => rewrite_empty cfg q h, rewrite_none q, ?_⟩
  rintro c rfl hkw hent
  simp only [containsConfiguredKeyword, Bool.or_eq_false_iff] at hkw
  exact rewrite_no_match c q hkw.1 hkw.2 hent

/-- Witness for C6 (amended): an unmatched query is returned unchanged. -/
theorem claim_C6_rewrite_noop_witness :
    QueryRewriter.rewrite (some sampleConfig) (s2l "weather") = s2l "weather" :=
  (claim_C6_rewrite_noop (some sampleConfig) (s2l "weather")).2.2 sampleConfig rfl
    (by decide) (Or.inr (by decide))

/-- C7 counterexample: with no expansion templates configured,
`should_rewrite "party"` is true although `rewrite` leaves "party"
unchanged — the claimed equivalence fails. -/
theorem claim_C7_counterexample :
    ¬ (QueryRewriter.shouldRewrite (some configNoExpansion) (s2l "party") = true
        ↔ QueryRewriter.rewrite (some configNoExpansion) (s2l "party") ≠ s2l "party") := by
  decide

/-- C7 (amended): `should_rewrite` is exactly the keyword-detection
predicate (nonempty query, configuration present, and a historical,
current or entity-trigger keyword matching); a changed `rewrite` output
implies `should_rewrite`, but not conversely. -/
theorem claim_C7_should_rewrite (cfg : Option TemporalDomainConfiguration) (q : Str) :
    (QueryRewriter.rewrite cfg q ≠ q → QueryRewriter.shouldRewrite cfg q = true)
    ∧ QueryRewriter.shouldRewrite none q = false
    ∧ (∀ c, cfg = some c →
        (QueryRewriter.shouldRewrite cfg q = true ↔
          (q ≠ [] ∧ (anyKeywordIn c.historicalKeywordsLower (lowerStr q) = true
            ∨ anyKeywordIn c.currentKeywordsLower (lowerStr q) = true
            ∨ anyKeywordIn QueryRewriter.extractEntityKeywordsFromConfig (lowerStr q) = true)))) := by
  refine ⟨?_, rfl, ?_⟩
  · intro hne
    by_contra hsr
    apply hne
    cases cfg with
    | none => exact rewrite_none q
    | some c =>
      by_cases hq : q = []
      · exact rewrite_empty _ _ (Or.inl hq)
      · have hsr' : ¬ (anyKeywordIn c.historicalKeywordsLower (lowerStr q) = true
            ∨ anyKeywordIn c.currentKeywordsLower (lowerStr q) = true
            ∨ anyKeywordIn QueryRewriter.extractEntityKeywordsFromConfig (lowerStr q) = true) := by
          intro hor
          apply hsr
          unfold QueryRewriter.shouldRewrite
          dsimp only
          rw [if_neg hq]
          rcases hor with h | h | h <;> simp [h]
        push_neg at hsr'
        exact rewrite_no_match c q (Bool.not_eq_true _ ▸ hsr'.1)
          (Bool.not_eq_true _ ▸ hsr'.2.1) (Or.inr (Bool.not_eq_true _ ▸ hsr'.2.2))
  · rintro c rfl
    unfold QueryRewriter.shouldRewrite
    dsimp only
    by_cases hq : q = []
    · simp [hq]
    · rw [if_neg hq]
      simp [hq, or_assoc]

/-- Witness for C7 (amended): a rewritten query implies `should_rewrite`. -/
theorem claim_C7_should_rewrite_witness :
    QueryRewriter.shouldRewrite (some sampleConfig) (s2l "current news") = true :=
  (claim_C7_should_rewrite (some sampleConfig) (s2l "current news")).1 (by decide)

/-- C2: the retriever searches the rewritten text but selects the filter
mode from the original query by word-boundary, case-insensitive keyword
matching; historical keywords win over current ones; the applied filter is
the single equality predicate on the configured temporal field with the
period value of the chosen mode, and otherwise (including without a Domain
Configuration) only `similarity_top_k` is passed. -/
theorem claim_C2_retriever_filter (tdc : Option TemporalDomainConfiguration)
    (topK : Nat) (q : Str) :
    (DynamicTemporalRetriever.retrieve tdc topK q).queryText = QueryRewriter.rewrite tdc q
    ∧ (DynamicTemporalRetriever.retrieve tdc topK q).topK = topK
    ∧ (DynamicTemporalRetriever.retrieve none topK q).filt = none
    ∧ (∀ c, tdc = some c →
        ((c.getAllHistoricalKeywords.any
            (fun kw => wordBoundaryMatch (lowerStr kw) (lowerStr q)) = true →
          (DynamicTemporalRetriever.retrieve tdc topK q).filt
            = some (c.temporalFieldName, c.historicalPeriodValue))
         ∧ (c.getAllHistoricalKeywords.any
              (fun kw => wordBoundaryMatch (lowerStr kw) (lowerStr q)) = false →
            c.getAllCurrentKeywords.any
              (fun kw => wordBoundaryMatch (lowerStr kw) (lowerStr q)) = true →
            (DynamicTemporalRetriever.retrieve tdc topK q).filt
              = some (c.temporalFieldName, c.currentPeriodValue))
         ∧ (c.getAllHistoricalKeywords.any
              (fun kw => wordBoundaryMatch (lowerStr kw) (lowerStr q)) = false →
            c.getAllCurrentKeywords.any
              (fun kw => wordBoundaryMatch (lowerStr kw) (lowerStr q)) = false →
            (DynamicTemporalRetriever.retrieve tdc topK q).filt = none))) := by
  refine ⟨?_, ?_, rfl, ?_⟩
  · cases tdc with
    | none => rfl
    | some c =>
      unfold DynamicTemporalRetriever.retrieve
      dsimp only
      split_ifs <;> rfl
  · cases tdc with
    | none => rfl
    | some c =>
      unfold DynamicTemporalRetriever.retrieve
      dsimp only
      split_ifs <;> rfl
  · rintro c rfl
    refine ⟨?_, ?_, ?_⟩
    · intro hh
      have hmode : DynamicTemporalRetriever.getTemporalFilterMode (some c) q = "historical" := by
        unfold DynamicTemporalRetriever.getTemporalFilterMode
        dsimp only
        rw [if_pos hh]
      unfold DynamicTemporalRetriever.retrieve
      dsimp only
      rw [hmode, if_neg (by decide : ¬ ("historical" : String) = "current"), if_pos rfl]
    · intro hh hc
      have hmode : DynamicTemporalRetriever.getTemporalFilterMode (some c) q = "current" := by
        unfold DynamicTemporalRetriever.getTemporalFilterMode
        dsimp only
        rw [if_neg (by rw [hh]; decide), if_pos hc]
      unfold DynamicTemporalRetriever.retrieve
      dsimp only
      rw [hmode, if_pos rfl]
    · intro hh hc
      have hmode : DynamicTemporalRetriever.getTemporalFilterMode (some c) q = "none" := by
        unfold DynamicTemporalRetriever.getTemporalFilterMode
        dsimp only
        rw [if_neg (by rw [hh]; decide), if_neg (by rw [hc]; decide)]
      unfold DynamicTemporalRetriever.retrieve
      dsimp only
      rw [hmode, if_neg (by decide : ¬ ("none" : String) = "current"),
        if_neg (by decide : ¬ ("none" : String) = "historical")]

/-- Witness for C2: a query matching both a current and a historical
keyword receives the historical-period equality filter. -/
theorem claim_C2_retriever_filter_witness :
    (DynamicTemporalRetriever.retrieve (some sampleConfig) 5
        (s2l "current and previous topics")).filt
      = some (sampleConfig.temporalFieldName, sampleConfig.historicalPeriodValue) :=
  ((claim_C2_retriever_filter (some sampleConfig) 5
      (s2l "current and previous topics")).2.2.2 sampleConfig rfl).1 (by decide)

/-- The dot product is commutative. -/
theorem dotProduct_comm : ∀ v1 v2 : List ℚ,
    HybridFilterPostprocessor.dotProduct v1 v2 = HybridFilterPostprocessor.dotProduct v2 v1
  | [], v2 => by cases v2 <;> rfl
  | _ :: _, [] => rfl
  | a :: s, b :: t => by
    simp only [HybridFilterPostprocessor.dotProduct, dotProduct_comm s t, mul_comm]

/-- The cosine-similarity threshold test is symmetric in its vectors. -/
theorem cosineSimilarityGE_comm (θ : ℚ) (v1 v2 : List ℚ) :
    HybridFilterPostprocessor.cosineSimilarityGE θ v1 v2
      = HybridFilterPostprocessor.cosineSimilarityGE θ v2 v1 := by
  unfold HybridFilterPostprocessor.cosineSimilarityGE
  dsimp only
  rw [dotProduct_comm v2 v1,
    mul_comm (HybridFilterPostprocessor.sqNorm v2) (HybridFilterPostprocessor.sqNorm v1)]
  by_cases h0 : HybridFilterPostprocessor.sqNorm v1 = 0 ∨ HybridFilterPostprocessor.sqNorm v2 = 0
  · rw [if_pos h0, if_pos (Or.symm h0)]
  · rw [if_neg h0, if_neg (fun hc => h0 (Or.symm hc))]

/-- Node similarity is symmetric. -/
theorem areNodesSimilar_comm (pp : HybridFilterConfiguration) (a b : Node) :
    HybridFilterPostprocessor.areNodesSimilar pp a b
      = HybridFilterPostprocessor.areNodesSimilar pp b a := by
  unfold HybridFilterPostprocessor.areNodesSimilar
  cases a.embedding <;> cases b.embedding <;> simp [cosineSimilarityGE_comm]

/-- A node without an embedding is similar to nothing. -/
theorem areNodesSimilar_none_fst (pp : HybridFilterConfiguration) (a b : Node)
    (h : a.embedding = none) :
    HybridFilterPostprocessor.areNodesSimilar pp a b = false := by
  unfold HybridFilterPostprocessor.areNodesSimilar
  rw [h]

/-- Nothing is similar to a node without an embedding. -/
theorem areNodesSimilar_none_snd (pp : HybridFilterConfiguration) (a b : Node)
    (h : b.embedding = none) :
    HybridFilterPostprocessor.areNodesSimilar pp a b = false := by
  rw [areNodesSimilar_comm]
  exact areNodesSimilar_none_fst pp b a h

/-- The dedup loop output is a subsequence of its input. -/
theorem dedupGo_sublist (sim : Node → Node → Bool) :
    ∀ (l kept : List (Nat × Node)) (skip : List Nat),
      List.Sublist (HybridFilterPostprocessor.dedupGo sim l kept skip) l := by
  intro l
  induction l with
  | nil => intro kept skip; simp [HybridFilterPostprocessor.dedupGo]
  | cons hd rest ih =>
    obtain ⟨i, n⟩ := hd
    intro kept skip
    simp only [HybridFilterPostprocessor.dedupGo]
    split_ifs with h1 h2
    · exact (ih _ _).cons _
    · exact (ih _ _).cons _
    · exact (ih _ _).cons₂ _

/-- `enumFrom` only tags: the second components are the original list. -/
theorem enumFrom_map_snd : ∀ (i : Nat) (l : List α),
    (HybridFilterPostprocessor.enumFrom i l).map Prod.snd = l
  | _, [] => rfl
  | i, a :: s => by
    simp only [HybridFilterPostprocessor.enumFrom, List.map_cons, enumFrom_map_snd (i + 1) s]

/-- Indices produced by `enumFrom i` are at least `i`. -/
theorem enumFrom_fst_le : ∀ (i : Nat) (l : List α) (p : Nat × α),
    p ∈ HybridFilterPostprocessor.enumFrom i l → i ≤ p.1
  | i, [], p => by simp [HybridFilterPostprocessor.enumFrom]
  | i, a :: s, p => by
    simp only [HybridFilterPostprocessor.enumFrom, List.mem_cons]
    rintro (rfl | hp)
    · exact Nat.le_refl _
    · exact Nat.le_of_succ_le (enumFrom_fst_le (i + 1) s p hp)

/-- `enumFrom` indices are strictly increasing. -/
theorem enumFrom_pairwise_lt : ∀ (i : Nat) (l : List α),
    List.Pairwise (fun a b => a.1 < b.1) (HybridFilterPostprocessor.enumFrom i l)
  | _, [] => List.Pairwise.nil
  | i, a :: s => by
    refine List.Pairwise.cons ?_ (enumFrom_pairwise_lt (i + 1) s)
    intro q hq
    exact Nat.lt_of_succ_le (enumFrom_fst_le (i + 1) s q hq)

/-- Every list member appears in its enumeration. -/
theorem mem_enumFrom_of_mem : ∀ (i : Nat) (l : List α) (a : α), a ∈ l →
    ∃ j, (j, a) ∈ HybridFilterPostprocessor.enumFrom i l
  | i, [], a => by simp
  | i, b :: s, a => by
    simp only [List.mem_cons]
    rintro (rfl | ha)
    · exact ⟨i, List.mem_cons_self _ _⟩
    · obtain ⟨j, hj⟩ := mem_enumFrom_of_mem (i + 1) s a ha
      exact ⟨j, List.mem_cons_of_mem _ hj⟩

/-- In a list with strictly increasing first components, the first
component determines the pair. -/
theorem pairwise_fst_lt_inj {α : Type} {l : List (Nat × α)}
    (hl : List.Pairwise (fun a b => a.1 < b.1) l)
    {i : Nat} {a b : α} (ha : (i, a) ∈ l) (hb : (i, b) ∈ l) : a = b := by
  induction l with
  | nil => simp at ha
  | cons hd rest ih =>
    rcases List.mem_cons.mp ha with heqa | ha' <;> rcases List.mem_cons.mp hb with heqb | hb'
    · rw [← heqa] at heqb
      exact (Prod.mk.injEq _ _ _ _ ▸ heqb).2.symm
    · exfalso
      have := List.rel_of_pairwise_cons hl hb'
      rw [← heqa] at this
      exact Nat.lt_irrefl i this
    · exfalso
      have := List.rel_of_pairwise_cons hl ha'
      rw [← heqb] at this
      exact Nat.lt_irrefl i this
    · exact ih (List.Pairwise.of_cons hl) ha' hb'

/-- Nothing in the dedup output is similar to an accumulated kept node. -/
theorem dedupGo_not_sim_kept (sim : Node → Node → Bool) :
    ∀ (l kept : List (Nat × Node)) (skip : List Nat),
      ∀ p ∈ HybridFilterPostprocessor.dedupGo sim l kept skip,
      ∀ km ∈ kept, sim p.2 km.2 = false := by
  intro l
  induction l with
  | nil => intro kept skip p hp; simp [HybridFilterPostprocessor.dedupGo] at hp
  | cons hd rest ih =>
    obtain ⟨i, n⟩ := hd
    intro kept skip p hp km hkm
    simp only [HybridFilterPostprocessor.dedupGo] at hp
    split_ifs at hp with h1 h2
    · exact ih kept skip p hp km hkm
    · exact ih kept skip p hp km hkm
    · rcases List.mem_cons.mp hp with heq | hp'
      · subst heq
        refine Bool.eq_false_iff.mpr (fun hx => h2 ?_)
        exact List.any_eq_true.mpr ⟨km, hkm, hx⟩
      · exact ih (kept ++ [(i, n)]) _ p hp' km (List.mem_append.mpr (Or.inl hkm))

/-- No two nodes of the dedup output are similar. -/
theorem dedupGo_pairwise (sim : Node → Node → Bool)
    (hsym : ∀ a b, sim a b = sim b a) :
    ∀ (l kept : List (Nat × Node)) (skip : List Nat),
      List.Pairwise (fun p q => sim p.2 q.2 = false)
        (HybridFilterPostprocessor.dedupGo sim l kept skip) := by
  intro l
  induction l with
  | nil => intro kept skip; simp [HybridFilterPostprocessor.dedupGo]
  | cons hd rest ih =>
    obtain ⟨i, n⟩ := hd
    intro kept skip
    simp only [HybridFilterPostprocessor.dedupGo]
    split_ifs with h1 h2
    · exact ih _ _
    · exact ih _ _
    · refine List.Pairwise.cons ?_ (ih _ _)
      intro q hq
      have hq' := dedupGo_not_sim_kept sim rest (kept ++ [(i, n)]) _ q hq (i, n)
        (List.mem_append.mpr (Or.inr (List.mem_cons_self _ _)))
      rw [hsym]
      exact hq'

/-- A node that is similar to nothing (in either direction) is never
removed by the dedup loop: it can be neither a duplicate of a kept node
nor marked as skipped. -/
theorem dedupGo_keeps_insensitive (sim : Node → Node → Bool) (n0 : Node)
    (hfr : ∀ k, sim n0 k = false) (hto : ∀ k, sim k n0 = false) :
    ∀ (l kept : List (Nat × Node)) (skip : List Nat),
      List.Pairwise (fun a b => a.1 < b.1) l →
      ∀ i, (i, n0) ∈ l → i ∉ skip →
      (i, n0) ∈ HybridFilterPostprocessor.dedupGo sim l kept skip := by
  intro l
  induction l with
  | nil => intro kept skip _ i hi _; simp at hi
  | cons hd rest ih =>
    obtain ⟨j, m⟩ := hd
    intro kept skip hpw i hi hskip
    rcases List.mem_cons.mp hi with heq | hi'
    · injection heq with h1 h2
      subst h1
      subst h2
      simp only [HybridFilterPostprocessor.dedupGo]
      rw [if_neg (by simp [List.contains, List.elem_iff, hskip]),
        if_neg (by simp [hfr])]
      exact List.mem_cons_self _ _
    · simp only [HybridFilterPostprocessor.dedupGo]
      split_ifs with hA hB
      · exact ih kept skip hpw.of_cons i hi' hskip
      · exact ih kept skip hpw.of_cons i hi' hskip
      · refine List.mem_cons_of_mem _ (ih (kept ++ [(j, m)]) _ hpw.of_cons i hi' ?_)
        intro hmem
        rcases List.mem_append.mp hmem with hs | hmarks
        · exact hskip hs
        · obtain ⟨⟨i2, m2⟩, hm2, hi2⟩ := List.mem_map.mp hmarks
          obtain ⟨hmem2, hsim2⟩ := List.mem_filter.mp hm2
          dsimp only at hi2
          subst hi2
          have hm2n0 : m2 = n0 := pairwise_fst_lt_inj hpw.of_cons hmem2 hi'
          subst hm2n0
          simp [hto] at hsim2

/-- Every input pair either survives the dedup loop or has a kept pair
with a strictly smaller index that is directly similar to it. -/
theorem dedupGo_removed_has_kept (sim : Node → Node → Bool)
    (hsym : ∀ a b, sim a b = sim b a) :
    ∀ (l kept : List (Nat × Node)) (skip : List Nat),
      List.Pairwise (fun a b => a.1 < b.1) l →
      (∀ km ∈ kept, ∀ jm ∈ l, km.1 < jm.1) →
      (∀ jm ∈ l, jm.1 ∈ skip →
        ∃ km ∈ kept, km.1 < jm.1 ∧ sim km.2 jm.2 = true) →
      ∀ inp ∈ l, inp ∈ HybridFilterPostprocessor.dedupGo sim l kept skip ∨
        ∃ km, (km ∈ kept ∨ km ∈ HybridFilterPostprocessor.dedupGo sim l kept skip)
          ∧ km.1 < inp.1 ∧ sim km.2 inp.2 = true := by
  intro l
  induction l with
  | nil => intro kept skip _ _ _ inp hinp; simp at hinp
  | cons hd rest ih =>
    obtain ⟨j, m⟩ := hd
    intro kept skip hpw hlt hskip inp hinp
    simp only [HybridFilterPostprocessor.dedupGo]
    split_ifs with hA hB
    · rcases List.mem_cons.mp hinp with rfl | hinp'
      · obtain ⟨km, hkm, hl1, hs1⟩ := hskip (j, m) (List.mem_cons_self _ _)
          (by simpa [List.contains, List.elem_iff] using hA)
        exact Or.inr ⟨km, Or.inl hkm, hl1, hs1⟩
      · exact ih kept skip hpw.of_cons
          (fun km h jm hjm => hlt km h jm (List.mem_cons_of_mem _ hjm))
          (fun jm hjm hs => hskip jm (List.mem_cons_of_mem _ hjm) hs)
          inp hinp'
    · rcases List.mem_cons.mp hinp with rfl | hinp'
      · obtain ⟨km, hkm, hs1⟩ := List.any_eq_true.mp hB
        refine Or.inr ⟨km, Or.inl hkm, hlt km hkm (j, m) (List.mem_cons_self _ _), ?_⟩
        rw [← hsym m km.2]
        exact hs1
      · exact ih kept skip hpw.of_cons
          (fun km h jm hjm => hlt km h jm (List.mem_cons_of_mem _ hjm))
          (fun jm hjm hs => hskip jm (List.mem_cons_of_mem _ hjm) hs)
          inp hinp'
    · have hrel : ∀ x ∈ rest, j < x.1 := fun x hx => List.rel_of_pairwise_cons hpw hx
      rcases List.mem_cons.mp hinp with rfl | hinp'
      · exact Or.inl (List.mem_cons_self _ _)
      · have hlt2 : ∀ km ∈ kept ++ [(j, m)], ∀ jm ∈ rest, km.1 < jm.1 := by
          intro km hkm jm hjm
          rcases List.mem_append.mp hkm with hk | hk
          · exact hlt km hk jm (List.mem_cons_of_mem _ hjm)
          · simp only [List.mem_singleton] at hk
            subst hk
            exact hrel jm hjm
        have hskip2 : ∀ jm ∈ rest,
            jm.1 ∈ skip ++ (rest.filter (fun x => sim m x.2)).map Prod.fst →
            ∃ km ∈ kept ++ [(j, m)], km.1 < jm.1 ∧ sim km.2 jm.2 = true := by
          intro jm hjm hmem
          rcases List.mem_append.mp hmem with hs | hmk
          · obtain ⟨km, hkm, h1, h2⟩ := hskip jm (List.mem_cons_of_mem _ hjm) hs
            exact ⟨km, List.mem_append.mpr (Or.inl hkm), h1, h2⟩
          · obtain ⟨⟨i2, m2⟩, hm2, hfst⟩ := List.mem_map.mp hmk
            obtain ⟨hmem2, hsim2⟩ := List.mem_filter.mp hm2
            dsimp only at hfst
            obtain ⟨j2, m2'⟩ := jm
            dsimp only at hfst ⊢
            subst hfst
            have : m2 = m2' := pairwise_fst_lt_inj hpw.of_cons hmem2 hjm
            subst this
            refine ⟨(j, m), List.mem_append.mpr (Or.inr (List.mem_singleton.mpr rfl)),
              hrel (i2, m2) hmem2, ?_⟩
            exact hsim2
        have IH := ih (kept ++ [(j, m)]) _ hpw.of_cons hlt2 hskip2 inp hinp'
        rcases IH with hmem | ⟨km, hkm, h1, h2⟩
        · exact Or.inl (List.mem_cons_of_mem _ hmem)
        · refine Or.inr ⟨km, ?_, h1, h2⟩
          rcases hkm with hk | hk
          · rcases List.mem_append.mp hk with hk2 | hk2
            · exact Or.inl hk2
            · simp only [List.mem_singleton] at hk2
              subst hk2
              exact Or.inr (List.mem_cons_self _ _)
          · exact Or.inr (List.mem_cons_of_mem _ hk)

/-- Stage 3 returns a subsequence of its input. -/
theorem deduplicateSemantically_sublist (pp : HybridFilterConfiguration)
    (nodes : List Node) :
    List.Sublist (HybridFilterPostprocessor.deduplicateSemantically pp nodes) nodes := by
  unfold HybridFilterPostprocessor.deduplicateSemantically
  split_ifs with h
  · exact List.Sublist.refl _
  · have h1 := dedupGo_sublist (HybridFilterPostprocessor.areNodesSimilar pp)
      (HybridFilterPostprocessor.enumFrom 0 nodes) [] []
    have h2 := List.Sublist.map Prod.snd h1
    rwa [enumFrom_map_snd] at h2

/-- C4: stage 3 never grows the list; no two of its outputs are similar
(in particular, no two embedded outputs reach the cosine threshold); a
document without an embedding is never similar to anything and is never
removed; and every removed document has a kept document, earlier in the
input, directly similar to it. -/
theorem claim_C4_dedup (pp : HybridFilterConfiguration) (nodes : List Node) :
    ((HybridFilterPostprocessor.deduplicateSemantically pp nodes).length ≤ nodes.length)
    ∧ List.Pairwise (fun a b => HybridFilterPostprocessor.areNodesSimilar pp a b = false)
        (HybridFilterPostprocessor.deduplicateSemantically pp nodes)
    ∧ (∀ a b e1 e2, a.embedding = some e1 → b.embedding = some e2 →
        HybridFilterPostprocessor.areNodesSimilar pp a b
          = HybridFilterPostprocessor.cosineSimilarityGE pp.similarity_threshold e1 e2)
    ∧ (∀ n ∈ nodes, n.embedding = none →
        n ∈ HybridFilterPostprocessor.deduplicateSemantically pp nodes)
    ∧ (∀ ip ∈ HybridFilterPostprocessor.enumFrom 0 nodes,
        ip.2 ∈ HybridFilterPostprocessor.deduplicateSemantically pp nodes ∨
        ∃ km ∈ HybridFilterPostprocessor.dedupGo
            (HybridFilterPostprocessor.areNodesSimilar pp)
            (HybridFilterPostprocessor.enumFrom 0 nodes) [] [],
          km.1 < ip.1 ∧ HybridFilterPostprocessor.areNodesSimilar pp km.2 ip.2 = true
            ∧ km.2 ∈ HybridFilterPostprocessor.deduplicateSemantically pp nodes) := by
  refine ⟨(deduplicateSemantically_sublist pp nodes).length_le, ?_, ?_, ?_, ?_⟩
  · unfold HybridFilterPostprocessor.deduplicateSemantically
    split_ifs with h
    · rcases nodes with _ | ⟨a, _ | ⟨b, t⟩⟩
      · exact List.Pairwise.nil
      · exact List.pairwise_singleton _ _
      · exfalso
        simp only [List.length_cons] at h
        omega
    · exact List.pairwise_map.mpr
        (dedupGo_pairwise (HybridFilterPostprocessor.areNodesSimilar pp)
          (areNodesSimilar_comm pp)
          (HybridFilterPostprocessor.enumFrom 0 nodes) [] [])
  · intro a b e1 e2 h1 h2
    unfold HybridFilterPostprocessor.areNodesSimilar
    rw [h1, h2]
  · intro n hn hne
    unfold HybridFilterPostprocessor.deduplicateSemantically
    split_ifs with h
    · exact hn
    · obtain ⟨i, hi⟩ := mem_enumFrom_of_mem 0 nodes n hn
      have hk := dedupGo_keeps_insensitive (HybridFilterPostprocessor.areNodesSimilar pp) n
        (fun k => areNodesSimilar_none_fst pp n k hne)
        (fun k => areNodesSimilar_none_snd pp k n hne)
        (HybridFilterPostprocessor.enumFrom 0 nodes) [] []
        (enumFrom_pairwise_lt 0 nodes) i hi (by simp)
      exact List.mem_map.mpr ⟨(i, n), hk, rfl⟩
  · intro ip hip
    unfold HybridFilterPostprocessor.deduplicateSemantically
    split_ifs with h
    · left
      have hm : ip.2 ∈ (HybridFilterPostprocessor.enumFrom 0 nodes).map Prod.snd :=
        List.mem_map_of_mem _ hip
      rwa [enumFrom_map_snd] at hm
    · have hr := dedupGo_removed_has_kept (HybridFilterPostprocessor.areNodesSimilar pp)
        (areNodesSimilar_comm pp)
        (HybridFilterPostprocessor.enumFrom 0 nodes) [] []
        (enumFrom_pairwise_lt 0 nodes) (by simp) (by simp) ip hip
      rcases hr with hmem | ⟨km, hkm, h1, h2⟩
      · exact Or.inl (List.mem_map.mpr ⟨ip, hmem, rfl⟩)
      · rcases hkm with hk | hk
        · simp at hk
        · exact Or.inr ⟨km, hk, h1, h2, List.mem_map.mpr ⟨km, hk, rfl⟩⟩

/-- Witness for C4: a document without an embedding survives stage 3. -/
theorem claim_C4_dedup_witness :
    nodeCurrent ∈ HybridFilterPostprocessor.deduplicateSemantically sampleFilterConfig
      [nodeCurrent, nodeCurrentB] :=
  (claim_C4_dedup sampleFilterConfig [nodeCurrent, nodeCurrentB]).2.2.2.1 nodeCurrent
    (by decide) rfl

/-- Stage 2 returns a subsequence of its input. -/
theorem filterByTemporalRelevance_fst_sublist
    (tdc : Option TemporalDomainConfiguration) (nodes : List Node) (q : Str) :
    List.Sublist
      (HybridFilterPostprocessor.filterByTemporalRelevance tdc nodes q).1 nodes := by
  unfold HybridFilterPostprocessor.filterByTemporalRelevance
  cases tdc with
  | none => exact List.Sublist.refl _
  | some c =>
    dsimp only
    split_ifs <;> first | exact List.Sublist.refl _ | exact List.filter_sublist _

/-- C10: the whole postprocessing pipeline returns a subsequence of its
input (every output element is an input element, in input order, without
duplication), of length at most `max_documents`; the empty input is
returned as-is. -/
theorem claim_C10_pipeline (pp : HybridFilterConfiguration)
    (tdc : Option TemporalDomainConfiguration)
    (llm : Option (Str → Node → Except Unit Str))
    (queryBundle : Option Str) (nodes : List Node) :
    List.Sublist
      (HybridFilterPostprocessor.postprocessNodes pp tdc llm queryBundle nodes) nodes
    ∧ (HybridFilterPostprocessor.postprocessNodes pp tdc llm queryBundle nodes).length
        ≤ pp.max_documents
    ∧ HybridFilterPostprocessor.postprocessNodes pp tdc llm queryBundle [] = [] := by
  refine ⟨?_, ?_, rfl⟩
  · by_cases h : nodes = []
    · subst h
      exact List.Sublist.refl _
    · unfold HybridFilterPostprocessor.postprocessNodes
      rw [if_neg h]
      dsimp only
      refine List.Sublist.trans (List.take_sublist _ _) ?_
      cases queryBundle with
      | none =>
        have hd := List.Sublist.trans
          (deduplicateSemantically_sublist pp (HybridFilterPostprocessor.filterByScore pp nodes))
          (List.filter_sublist nodes)
        cases llm with
        | none => exact hd
        | some f =>
          dsimp only
          exact hd
      | some q =>
        have hd := List.Sublist.trans
          (List.Sublist.trans
            (deduplicateSemantically_sublist pp _)
            (filterByTemporalRelevance_fst_sublist tdc
              (HybridFilterPostprocessor.filterByScore pp nodes) q))
          (List.filter_sublist nodes)
        cases llm with
        | none => exact hd
        | some f =>
          dsimp only
          split_ifs with hcond
          · refine List.Sublist.trans ?_ hd
            rw [filterByLlmRelevance_eq_filter]
            exact List.filter_sublist _
          · exact hd
  · by_cases h : nodes = []
    · subst h
      simp [HybridFilterPostprocessor.postprocessNodes]
    · unfold HybridFilterPostprocessor.postprocessNodes
      rw [if_neg h]
      dsimp only
      exact List.length_take_le _ _
